import Mathlib

/-!
Verification of the blockchain engine in `blockchain.py`.

The Python module is shallowly embedded here:

* Python `dict` blocks become the `Blockchain.Block` structure; transactions
  become `Blockchain.Tx`.
* Python values that may be a string, an integer or `None` (the
  `previous_hash` argument and the JSON fields of a submitted transaction)
  are embedded as the inductive `Blockchain.PyVal`, with Python truthiness
  (`x or y`) made explicit by `PyVal.truthy`.
* `hashlib.sha256(...).hexdigest()` is implemented bit-for-bit over byte
  lists (`sha256hex`), so that proof-of-work predicates evaluate inside Lean.
* `time()` timestamps are modelled as natural numbers supplied by the caller:
  no claim depends on the numeric type of the timestamp, only on the hash
  being a deterministic function of the block's fields.
* Code that can raise (`chain[0]` / `chain[-1]` on an empty list) returns
  `Option`, with `none` standing for the raised `IndexError`.
-/

set_option maxRecDepth 100000

namespace Blockchain

/-! ### SHA-256 over byte lists (faithful to `hashlib.sha256(...).hexdigest()`) -/

/-- Truncate to 32 bits (all SHA-256 word arithmetic is mod 2^32). -/
def w32 (n : Nat) : Nat := n % 4294967296

/-- 32-bit right rotation. -/
def rotr (n x : Nat) : Nat := w32 ((x >>> n) ||| (x <<< (32 - n)))

def bigS0 (x : Nat) : Nat := (rotr 2 x) ^^^ (rotr 13 x) ^^^ (rotr 22 x)

def bigS1 (x : Nat) : Nat := (rotr 6 x) ^^^ (rotr 11 x) ^^^ (rotr 25 x)

def smallS0 (x : Nat) : Nat := (rotr 7 x) ^^^ (rotr 18 x) ^^^ (x >>> 3)

def smallS1 (x : Nat) : Nat := (rotr 17 x) ^^^ (rotr 19 x) ^^^ (x >>> 10)

/-- The 64 SHA-256 round constants. -/
def roundK : List Nat :=
  [1116352408, 1899447441, 3049323471, 3921009573, 961987163,
   1508970993, 2453635748, 2870763221, 3624381080, 310598401,
   607225278, 1426881987, 1925078388, 2162078206, 2614888103,
   3248222580, 3835390401, 4022224774, 264347078, 604807628,
   770255983, 1249150122, 1555081692, 1996064986, 2554220882,
   2821834349, 2952996808, 3210313671, 3336571891, 3584528711,
   113926993, 338241895, 666307205, 773529912, 1294757372,
   1396182291, 1695183700, 1986661051, 2177026350, 2456956037,
   2730485921, 2820302411, 3259730800, 3345764771, 3516065817,
   3600352804, 4094571909, 275423344, 430227734, 506948616,
   659060556, 883997877, 958139571, 1322822218, 1537002063,
   1747873779, 1955562222, 2024104815, 2227730452, 2361852424,
   2428436474, 2756734187, 3204031479, 3329325298]

/-- The initial SHA-256 hash state. -/
def hInit : List Nat :=
  [1779033703, 3144134277, 1013904242, 2773480762,
   1359893119, 2600822924, 528734635, 1541459225]

/-- One SHA-256 round; `kw` is the (already combined) round constant plus
message-schedule word. The 8-element list is (a,b,c,d,e,f,g,h). -/
def roundStep (st : List Nat) (kw : Nat) : List Nat :=
  let a := st.getD 0 0
  let b := st.getD 1 0
  let c := st.getD 2 0
  let d := st.getD 3 0
  let e := st.getD 4 0
  let f := st.getD 5 0
  let g := st.getD 6 0
  let h := st.getD 7 0
  let ch := (e &&& f) ^^^ ((e ^^^ 4294967295) &&& g)
  let maj := (a &&& b) ^^^ (a &&& c) ^^^ (b &&& c)
  let t1 := w32 (h + bigS1 e + ch + kw)
  let t2 := w32 (bigS0 a + maj)
  [w32 (t1 + t2), a, b, c, w32 (d + t1), e, f, g]

/-- Expand 16 message words to the 64-word schedule. -/
def schedule (ws : List Nat) : List Nat :=
  (List.range 48).foldl (fun acc _ =>
    let n := acc.length
    acc ++ [w32 (acc.getD (n - 16) 0 + smallS0 (acc.getD (n - 15) 0) +
                 acc.getD (n - 7) 0 + smallS1 (acc.getD (n - 2) 0))]) ws

/-- Compress one 64-word schedule into the running hash state. -/
def compress (hs ws : List Nat) : List Nat :=
  let kws := (roundK.zip ws).map (fun p => w32 (p.1 + p.2))
  let fin := kws.foldl roundStep hs
  (hs.zip fin).map (fun p => w32 (p.1 + p.2))

/-- Big-endian 4-byte groups to 32-bit words. -/
def bytesToWords (bs : List Nat) : List Nat :=
  (List.range (bs.length / 4)).map (fun i =>
    bs.getD (4 * i) 0 * 16777216 + bs.getD (4 * i + 1) 0 * 65536 +
    bs.getD (4 * i + 2) 0 * 256 + bs.getD (4 * i + 3) 0)

/-- SHA-256 padding: 0x80, zeros to 56 mod 64, 64-bit big-endian bit length. -/
def shaPad (msg : List Nat) : List Nat :=
  let L := msg.length
  msg ++ [128] ++ List.replicate ((119 - L % 64) % 64) 0 ++
    (List.range 8).map (fun i => ((8 * L) >>> (8 * (7 - i))) % 256)

/-- The eight 32-bit words of the SHA-256 digest of a byte list. -/
def sha256words (msg : List Nat) : List Nat :=
  let padded := shaPad msg
  let blocks := (List.range (padded.length / 64)).map
    (fun i => (padded.drop (64 * i)).take 64)
  blocks.foldl (fun hs blk => compress hs (schedule (bytesToWords blk))) hInit

def hexChar (d : Nat) : Char :=
  if d < 10 then Char.ofNat (48 + d) else Char.ofNat (87 + d)

def word8hex (n : Nat) : List Char :=
  (List.range 8).map (fun i => hexChar ((n >>> (4 * (7 - i))) % 16))

/-- Lowercase hex digest of a byte list, as `hashlib...hexdigest()` returns. -/
def sha256hex (msg : List Nat) : String :=
  String.mk (((sha256words msg).map word8hex).flatten)

/-- UTF-8 bytes of a string; all strings hashed by this program are ASCII
(json.dumps escapes non-ASCII by default), where UTF-8 is the identity on
code points. -/
def strBytes (s : String) : List Nat := s.data.map Char.toNat

example : sha256hex (strBytes "abc") =
    "ba7816bf8f01cfea414140de5dae2223b00361a396177a9cb410ff61f20015ad" := by
  decide

/-! ### Data model -/

/-- A Python value as it appears in this program's dynamic positions: the
`previous_hash` argument/field and JSON transaction fields may be a string,
an integer, or `None`. -/
inductive PyVal where
  | pstr (s : String)
  | pint (n : Int)
  | pnone
deriving DecidableEq, Repr

/-- Python truthiness, as used by `previous_hash or self.hash(...)`. -/
def PyVal.truthy : PyVal → Bool
  | .pstr s => if s = "" then false else true
  | .pint n => if n = 0 then false else true
  | .pnone => false

/-- A transaction dict `{'sender': ..., 'recipient': ..., 'amount': ...}`. -/
structure Tx where
  sender : PyVal
  recipient : PyVal
  amount : PyVal
deriving DecidableEq, Repr

/-- A block dict. `timestamp` (a float from `time()` in Python) is modelled
as a natural number passed in by the caller. -/
structure Block where
  index : Nat
  timestamp : Nat
  transactions : List Tx
  proof : Nat
  previous_hash : PyVal
deriving DecidableEq, Repr

/-- The mutable state of a `Blockchain` object (the `nodes` set is not
modelled: `resolve_conflicts` receives the peers' responses directly). -/
structure State where
  chain : List Block
  current_transactions : List Tx
deriving DecidableEq, Repr

/-! ### `Blockchain.hash`: `json.dumps(block, sort_keys=True)` then SHA-256 -/

/-- JSON string escaping for the characters that occur in this development
(`json.dumps` escapes the quote and the backslash; control characters and
non-ASCII escapes are not needed for printable-ASCII field values). -/
def jsonEscape (s : String) : String :=
  String.mk (s.data.foldr
    (fun c acc => if c = '"' ∨ c = '\\' then '\\' :: c :: acc else c :: acc) [])

def jsonStr (s : String) : String := "\"" ++ jsonEscape s ++ "\""

/-- JSON rendering of a dynamic value (`json.dumps` prints `None` as
`null` and ints in decimal). -/
def PyVal.json : PyVal → String
  | .pstr s => jsonStr s
  | .pint n => toString n
  | .pnone => "null"

/-- `json.dumps` of a transaction with `sort_keys=True` and default
separators: keys in order amount, recipient, sender. -/
def Tx.json (t : Tx) : String :=
  "\x7b\"amount\": " ++ t.amount.json ++ ", \"recipient\": " ++
    t.recipient.json ++ ", \"sender\": " ++ t.sender.json ++ "\x7d"

/-- `json.dumps` of a block with `sort_keys=True`: keys in order index,
previous_hash, proof, timestamp, transactions; the transaction list keeps
its own order. -/
def Block.json (b : Block) : String :=
  "\x7b\"index\": " ++ toString b.index ++ ", \"previous_hash\": " ++
    b.previous_hash.json ++ ", \"proof\": " ++ toString b.proof ++
    ", \"timestamp\": " ++ toString b.timestamp ++ ", \"transactions\": [" ++
    String.intercalate ", " (b.transactions.map Tx.json) ++ "]\x7d"

/-- `Blockchain.hash`: SHA-256 hex digest of the canonical JSON of a block. -/
def hash (b : Block) : String := sha256hex (strBytes b.json)

/-! ### Proof of work -/

/-- `Blockchain.valid_proof`: the digest of the decimal concatenation
`f"(last_proof)(proof)"` must start with "1234". -/
def valid_proof (last_proof proof : Nat) : Bool :=
  (sha256hex (strBytes (toString last_proof ++ toString proof))).take 4 == "1234"

/-- `Blockchain.proof_of_work`: the `while` loop starting at `proof = 0` and
incrementing by 1 is sequential search for the least satisfying value; it is
embedded as `Nat.find`, which is defined by exactly that search and is only
meaningful (terminating, in Python) when a satisfying value exists. -/
def proof_of_work (last_proof : Nat)
    (h : ∃ p, valid_proof last_proof p = true) : Nat :=
  Nat.find h

/-! ### Ledger operations -/

/-- `Blockchain.new_block`. `previous_hash or self.hash(self.chain[-1])`
keeps a truthy argument and otherwise hashes the last block; `none` is the
`IndexError` raised by `self.chain[-1]` on an empty chain. The new block is
appended and the pending pool is reset to `[]`. -/
def new_block (st : State) (timestamp proof : Nat) (previous_hash : PyVal) :
    Option (Block × State) :=
  match (if previous_hash.truthy then some previous_hash
         else (st.chain.getLast?).map (fun lb => PyVal.pstr (hash lb))) with
  | none => none
  | some ph =>
    let b : Block :=
      { index := st.chain.length + 1, timestamp := timestamp,
        transactions := st.current_transactions, proof := proof,
        previous_hash := ph }
    some (b, { chain := st.chain ++ [b], current_transactions := [] })

/-- `Blockchain.__init__`: empty chain and pool, then
`new_block(previous_hash='1', proof=100)` (which always succeeds since
`'1'` is truthy). -/
def newChain (timestamp : Nat) : State :=
  match new_block { chain := [], current_transactions := [] }
      timestamp 100 (PyVal.pstr "1") with
  | some (_, st) => st
  | none => { chain := [], current_transactions := [] }

/-- `Blockchain.new_transaction`: appends to the pool, then returns
`self.last_block['index'] + 1`; the append happens before `last_block` is
read, so on an empty chain the pool is extended and then `IndexError`
(`none`) is raised. -/
def new_transaction (st : State) (sender recipient amount : PyVal) :
    Option Nat × State :=
  let st' : State :=
    { st with current_transactions := st.current_transactions ++
        [{ sender := sender, recipient := recipient, amount := amount }] }
  match st'.chain.getLast? with
  | none => (none, st')
  | some lb => (some (lb.index + 1), st')

/-- The three keys the `/transactions/new` route requires. -/
def requiredKeys : List String := ["sender", "recipient", "amount"]

/-- The `/transactions/new` route: checks only that every required key is
present (`all(k in values ...)`), answering 400 (`none`, state unchanged)
otherwise; present-but-`None` values are passed through unchecked. -/
def route_new_transaction (st : State) (values : List (String × PyVal)) :
    Option Nat × State :=
  if requiredKeys.all (fun k => (values.lookup k).isSome) then
    new_transaction st ((values.lookup "sender").getD PyVal.pnone)
      ((values.lookup "recipient").getD PyVal.pnone)
      ((values.lookup "amount").getD PyVal.pnone)
  else (none, st)

/-! ### Chain validation -/

/-- The two per-pair checks of `valid_chain`, in source order:
`curr['previous_hash'] != self.hash(last)` then
`not self.valid_proof(last['proof'], curr['proof'])`. -/
def pairOk (last curr : Block) : Bool :=
  decide (curr.previous_hash = PyVal.pstr (hash last)) &&
    valid_proof last.proof curr.proof

/-- The `while current_index < len(chain)` walk of `valid_chain`, carrying
`last_block` and returning `False` at the first failing pair. -/
def validFrom (last : Block) : List Block → Bool
  | [] => true
  | curr :: rest => if pairOk last curr then validFrom curr rest else false

/-- `Blockchain.valid_chain`; `last_block = chain[0]` raises `IndexError`
(`none`) on an empty chain. -/
def valid_chain : List Block → Option Bool
  | [] => none
  | b :: rest => some (validFrom b rest)

/-! ### Consensus -/

/-- One peer's answer to `GET /chain`, as `resolve_conflicts` reads it:
the HTTP status and the `length` and `chain` JSON fields. The peers'
responses are passed to `resolve_conflicts` in iteration order, replacing
the network round trips. -/
structure Resp where
  status : Nat
  length : Nat
  chain : List Block
deriving DecidableEq, Repr

/-- The `for node in neighbors` loop of `resolve_conflicts`: skip non-200
responses, and on `length > max_length and self.valid_chain(chain)` adopt
the candidate and raise `max_length`. An `IndexError` escaping from
`valid_chain` (an empty candidate, `none`) aborts the whole loop. Returns
the final `new_chain`. -/
def scanPeers : List Resp → Option (List Block) → Nat → Option (Option (List Block))
  | [], best, _ => some best
  | r :: rest, best, maxLen =>
    if r.status = 200 then
      if maxLen < r.length then
        match valid_chain r.chain with
        | none => none
        | some true => scanPeers rest (some r.chain) r.length
        | some false => scanPeers rest best maxLen
      else scanPeers rest best maxLen
    else scanPeers rest best maxLen

/-- `Blockchain.resolve_conflicts`: `max_length` starts at
`len(self.chain)`; after the loop, `if new_chain:` (Python truthiness of a
list or `None`) decides whether `self.chain` is replaced. The first
component is `none` when the loop raised `IndexError` before returning. -/
def resolve_conflicts (st : State) (resps : List Resp) : Option Bool × State :=
  match scanPeers resps none st.chain.length with
  | none => (none, st)
  | some none => (some false, st)
  | some (some c) =>
    if c.isEmpty then (some false, st)
    else (some true, { st with chain := c })

/-- Spec-side validator, following the spec's words (§4.4) for comparison
with the code: the walk from index 1 is vacuously true for chains of
length 0 or 1, with no raising path. It agrees with `valid_chain` on every
non-empty chain. -/
def isChainValidSpec : List Block → Bool
  | [] => true
  | b :: rest => validFrom b rest

/-- Spec-side scan step, following the spec's words (§4.5) for comparison
with the code: a candidate is adopted as the new best — raising
`currentMaxLength` to its reported length — exactly when it was fetched
successfully, its reported length strictly exceeds the running
`currentMaxLength`, and the validator accepts its chain; otherwise the
accumulator is kept, so an equal-length candidate never replaces the
current best. -/
def specStep (acc : Option (List Block) × Nat) (r : Resp) :
    Option (List Block) × Nat :=
  if r.status = 200 ∧ acc.2 < r.length ∧ isChainValidSpec r.chain = true
  then (some r.chain, r.length) else acc

/-- Spec-side consensus resolver, following the spec's words (§4.5) for
comparison with the code: fold the candidates in order with
`currentMaxLength` initialized to the local chain's length; if some
candidate was adopted, the chain is wholesale-replaced by the final
adopted one and `replaced = true`, otherwise the local chain is kept and
`replaced = false`. -/
def resolveSpec (st : State) (resps : List Resp) : Bool × State :=
  match (resps.foldl specStep (none, st.chain.length)).1 with
  | some c => (true, { st with chain := c })
  | none => (false, st)

/-! ### Sequences of ledger operations -/

/-- Run a sequence of `new_block` calls, each given its timestamp, proof
and `previous_hash` argument; `none` if any call raises. -/
def commitList (st : State) : List (Nat × Nat × PyVal) → Option State
  | [] => some st
  | (t, p, ph) :: rest =>
    match new_block st t p ph with
    | none => none
    | some (_, st') => commitList st' rest

/-- A run of commits is well-formed when, at each step, the chain is
non-empty, the `previous_hash` argument is omitted (`None`) or is the hash
of the current last block (as the `/mine` route passes), and the proof
satisfies `valid_proof` against the last block's proof. -/
def okRun (st : State) : List (Nat × Nat × PyVal) → Bool
  | [] => true
  | (t, p, ph) :: rest =>
    match st.chain.getLast? with
    | none => false
    | some lb =>
      (decide (ph = PyVal.pnone) || decide (ph = PyVal.pstr (hash lb))) &&
      valid_proof lb.proof p &&
      (match new_block st t p ph with
       | none => false
       | some (_, st') => okRun st' rest)

/-- A concrete block used by witness instantiations: the genesis block of a
ledger created at time 0. -/
def sampleBlock : Block :=
  { index := 1, timestamp := 0, transactions := [], proof := 100,
    previous_hash := PyVal.pstr "1" }

/-! ### Helper lemmas -/

theorem roundStep_length (st : List Nat) (kw : Nat) : (roundStep st kw).length = 8 := rfl

theorem foldl_roundStep_length (l : List Nat) (hs : List Nat) (h : hs.length = 8) :
    (l.foldl roundStep hs).length = 8 := by
  induction l generalizing hs with
  | nil => exact h
  | cons a l ih => exact ih _ (roundStep_length hs a)

theorem compress_length (hs ws : List Nat) (h : hs.length = 8) :
    (compress hs ws).length = 8 := by
  unfold compress
  rw [List.length_map, List.length_zip, foldl_roundStep_length _ _ h, h]
  simp

theorem sha256words_length (msg : List Nat) : (sha256words msg).length = 8 := by
  have key : ∀ (bs : List (List Nat)) (hs : List Nat), hs.length = 8 →
      (bs.foldl (fun acc blk => compress acc (schedule (bytesToWords blk))) hs).length = 8 := by
    intro bs
    induction bs with
    | nil => intro hs h; exact h
    | cons a l ih => intro hs h; exact ih _ (compress_length _ _ h)
  exact key _ _ rfl

theorem word8hex_length (n : Nat) : (word8hex n).length = 8 := by
  simp [word8hex]

theorem sha256hex_length (msg : List Nat) : (sha256hex msg).length = 64 := by
  have key : ∀ ws : List Nat, ((ws.map word8hex).flatten).length = 8 * ws.length := by
    intro ws
    induction ws with
    | nil => rfl
    | cons a l ih =>
      simp only [List.map_cons, List.flatten_cons, List.length_append, ih, word8hex_length,
        List.length_cons]
      omega
  show ((((sha256words msg).map word8hex).flatten)).length = 64
  rw [key, sha256words_length]

theorem hash_ne_empty (b : Block) : hash b ≠ "" := by
  intro h
  have h64 : (hash b).length = 64 := sha256hex_length _
  rw [h] at h64
  exact absurd h64 (by decide)

theorem truthy_hash (b : Block) : (PyVal.pstr (hash b)).truthy = true := by
  simp [PyVal.truthy, hash_ne_empty b]

/-- The validator walk accepts exactly the chains whose consecutive pairs
all pass both checks. -/
theorem validFrom_iff_chain (b : Block) (l : List Block) :
    validFrom b l = true ↔ List.Chain' (fun x y => pairOk x y = true) (b :: l) := by
  induction l generalizing b with
  | nil => simp [validFrom]
  | cons c rest ih =>
    cases hpc : pairOk b c with
    | false => simp [validFrom, hpc, List.chain'_cons]
    | true => simp [validFrom, hpc, List.chain'_cons, ih]

theorem valid_chain_eq_true_iff (c : List Block) :
    valid_chain c = some true ↔
      c ≠ [] ∧ List.Chain' (fun x y => pairOk x y = true) c := by
  cases c with
  | nil => simp [valid_chain]
  | cons b l => simp [valid_chain, validFrom_iff_chain]

theorem valid_chain_ne_nil (c : List Block) (hc : c ≠ []) :
    valid_chain c = some true ∨ valid_chain c = some false := by
  cases c with
  | nil => exact absurd rfl hc
  | cons b l => cases h : validFrom b l <;> simp [valid_chain, h]

/-- What `new_block` does on a non-empty chain, for any `previous_hash`
argument. -/
theorem new_block_spec (st : State) (t p : Nat) (ph : PyVal) (lb : Block)
    (hlb : st.chain.getLast? = some lb) :
    ∃ b : Block, new_block st t p ph =
        some (b, { chain := st.chain ++ [b], current_transactions := [] }) ∧
      b.index = st.chain.length + 1 ∧ b.timestamp = t ∧
      b.transactions = st.current_transactions ∧ b.proof = p ∧
      b.previous_hash = (if ph.truthy then ph else PyVal.pstr (hash lb)) := by
  cases hph : ph.truthy with
  | true =>
    refine ⟨{ index := st.chain.length + 1, timestamp := t,
              transactions := st.current_transactions, proof := p,
              previous_hash := ph }, ?_, rfl, rfl, rfl, rfl, ?_⟩
    · simp [new_block, hph]
    · simp [hph]
  | false =>
    refine ⟨{ index := st.chain.length + 1, timestamp := t,
              transactions := st.current_transactions, proof := p,
              previous_hash := PyVal.pstr (hash lb) }, ?_, rfl, rfl, rfl, rfl, ?_⟩
    · simp [new_block, hph, hlb]
    · simp [hph]

/-- `__init__` builds exactly one genesis block. -/
theorem newChain_eq (t : Nat) :
    newChain t =
      { chain := [{ index := 1, timestamp := t, transactions := [], proof := 100,
                    previous_hash := PyVal.pstr "1" }],
        current_transactions := [] } := rfl

/-- If the peer loop returns, the returned `new_chain` is either still the
initial accumulator or the chain of some response that had status 200,
reported length above the initial maximum, and passed `valid_chain`. -/
theorem scanPeers_some (resps : List Resp) (best : Option (List Block)) (m : Nat)
    (res : Option (List Block)) (h : scanPeers resps best m = some res) :
    res = best ∨ ∃ r ∈ resps, r.status = 200 ∧ m < r.length ∧
      valid_chain r.chain = some true ∧ res = some r.chain := by
  induction resps generalizing best m with
  | nil =>
    simp only [scanPeers, Option.some.injEq] at h
    exact Or.inl h.symm
  | cons r rest ih =>
    rw [scanPeers] at h
    by_cases h200 : r.status = 200
    · rw [if_pos h200] at h
      by_cases hlen : m < r.length
      · rw [if_pos hlen] at h
        cases hv : valid_chain r.chain with
        | none => rw [hv] at h; cases h
        | some ok =>
          rw [hv] at h
          cases ok with
          | false =>
            rcases ih _ _ h with h1 | ⟨r', hr', hs', hm', hv', hres'⟩
            · exact Or.inl h1
            · exact Or.inr ⟨r', List.mem_cons_of_mem _ hr', hs', hm', hv', hres'⟩
          | true =>
            rcases ih _ _ h with h1 | ⟨r', hr', hs', hm', hv', hres'⟩
            · exact Or.inr ⟨r, List.mem_cons_self _ _, h200, hlen, hv, h1⟩
            · exact Or.inr ⟨r', List.mem_cons_of_mem _ hr', hs', by omega, hv', hres'⟩
      · rw [if_neg hlen] at h
        rcases ih _ _ h with h1 | ⟨r', hr', hs', hm', hv', hres'⟩
        · exact Or.inl h1
        · exact Or.inr ⟨r', List.mem_cons_of_mem _ hr', hs', hm', hv', hres'⟩
    · rw [if_neg h200] at h
      rcases ih _ _ h with h1 | ⟨r', hr', hs', hm', hv', hres'⟩
      · exact Or.inl h1
      · exact Or.inr ⟨r', List.mem_cons_of_mem _ hr', hs', hm', hv', hres'⟩

/-- When the code's peer loop completes, it computes exactly the spec-side
fold: on every examined candidate the code's `valid_chain` returned a
value, hence the candidate is non-empty and the two validators agree; and
every chain the loop adopts is non-empty. -/
theorem scanPeers_eq_foldl (resps : List Resp) (best : Option (List Block)) (m : Nat)
    (res : Option (List Block))
    (hbest : ∀ c, best = some c → c ≠ [])
    (h : scanPeers resps best m = some res) :
    res = (resps.foldl specStep (best, m)).1 ∧ ∀ c, res = some c → c ≠ [] := by
  induction resps generalizing best m with
  | nil =>
    simp only [scanPeers, Option.some.injEq] at h
    subst h
    exact ⟨rfl, hbest⟩
  | cons r rest ih =>
    rw [scanPeers] at h
    rw [List.foldl_cons]
    by_cases h200 : r.status = 200
    · rw [if_pos h200] at h
      by_cases hlen : m < r.length
      · rw [if_pos hlen] at h
        cases hv : valid_chain r.chain with
        | none => rw [hv] at h; cases h
        | some ok =>
          rw [hv] at h
          obtain ⟨b0, l0, hbl⟩ : ∃ b0 l0, r.chain = b0 :: l0 := by
            cases hx : r.chain with
            | nil => rw [hx] at hv; simp [valid_chain] at hv
            | cons b0 l0 => exact ⟨b0, l0, rfl⟩
          have hagree : isChainValidSpec r.chain = ok := by
            rw [hbl] at hv ⊢
            simp only [valid_chain, Option.some.injEq] at hv
            simp only [isChainValidSpec]
            exact hv
          cases ok with
          | true =>
            have hstep : specStep (best, m) r = (some r.chain, r.length) := by
              simp [specStep, h200, hlen, hagree]
            rw [hstep]
            refine ih (some r.chain) r.length ?_ h
            intro c hc
            injection hc with hc
            rw [← hc, hbl]
            exact List.cons_ne_nil b0 l0
          | false =>
            have hstep : specStep (best, m) r = (best, m) := by
              simp [specStep, hagree]
            rw [hstep]
            exact ih best m hbest h
      · rw [if_neg hlen] at h
        have hstep : specStep (best, m) r = (best, m) := by
          simp [specStep, hlen]
        rw [hstep]
        exact ih best m hbest h
    · rw [if_neg h200] at h
      have hstep : specStep (best, m) r = (best, m) := by
        simp [specStep, h200]
      rw [hstep]
      exact ih best m hbest h

/-- A well-formed run of commits keeps the chain non-empty and keeps every
consecutive pair passing both validator checks. -/
theorem okRun_commitList (ops : List (Nat × Nat × PyVal)) (st : State)
    (hne : st.chain ≠ [])
    (hch : List.Chain' (fun x y => pairOk x y = true) st.chain)
    (hok : okRun st ops = true) :
    ∃ st', commitList st ops = some st' ∧ st'.chain ≠ [] ∧
      List.Chain' (fun x y => pairOk x y = true) st'.chain := by
  induction ops generalizing st with
  | nil => exact ⟨st, rfl, hne, hch⟩
  | cons op rest ih =>
    obtain ⟨t, p, ph⟩ := op
    cases hlb : st.chain.getLast? with
    | none =>
      rw [okRun, hlb] at hok
      cases hok
    | some lb =>
      rw [okRun, hlb] at hok
      simp only [Bool.and_eq_true, Bool.or_eq_true, decide_eq_true_eq] at hok
      obtain ⟨⟨hphok, hvp⟩, hrest⟩ := hok
      obtain ⟨b, hb, hidx, hts, htx, hpf, hph⟩ := new_block_spec st t p ph lb hlb
      rw [hb] at hrest
      have hbPH : b.previous_hash = PyVal.pstr (hash lb) := by
        rcases hphok with h1 | h1
        · rw [hph, h1]; simp [PyVal.truthy]
        · rw [hph, h1]; simp
      have hpair : pairOk lb b = true := by
        simp [pairOk, hbPH, hpf, hvp]
      have hch2 : List.Chain' (fun x y => pairOk x y = true) (st.chain ++ [b]) := by
        rw [List.chain'_append]
        refine ⟨hch, List.chain'_singleton b, ?_⟩
        intro x hx y hy
        rw [hlb] at hx
        simp only [Option.mem_def, Option.some.injEq] at hx
        simp only [List.head?_cons, Option.mem_def, Option.some.injEq] at hy
        rw [← hx, ← hy]
        exact hpair
      obtain ⟨st', hcl, hne', hch3⟩ :=
        ih { chain := st.chain ++ [b], current_transactions := [] } (by simp) hch2 hrest
      refine ⟨st', ?_, hne', hch3⟩
      rw [commitList, hb]
      exact hcl

/-! ### Claims -/

/-- C1 (counterexample): a chain produced solely through `__init__` and one
`new_block` call — with proof 0, which `new_block` accepts — is rejected by
`valid_chain`, so not every such chain is valid. -/
theorem commit_invalid_proof_cex :
    (commitList (newChain 0) [(0, 0, PyVal.pnone)]).map (fun st => valid_chain st.chain) =
      some (some false) := by
  decide

/-- C1 (amended): every chain produced through `__init__` and `new_block`
calls in which each call omits `previous_hash` (or passes the hash of the
current last block, as `/mine` does) and supplies a proof accepted by
`valid_proof` against the last block's proof, satisfies `valid_chain`. -/
theorem okRun_valid_chain (t : Nat) (ops : List (Nat × Nat × PyVal))
    (hok : okRun (newChain t) ops = true) :
    ∃ st', commitList (newChain t) ops = some st' ∧
      valid_chain st'.chain = some true := by
  obtain ⟨st', hcl, hne, hch⟩ := okRun_commitList ops (newChain t)
    (by rw [newChain_eq]; simp)
    (by rw [newChain_eq]; exact List.chain'_singleton _) hok
  exact ⟨st', hcl, (valid_chain_eq_true_iff _).2 ⟨hne, hch⟩⟩

/-- C1 (witness): a fresh ledger plus one mined commit (proof 57432, the
valid proof after 100) yields a chain `valid_chain` accepts. -/
theorem okRun_valid_chain_witness :
    okRun (newChain 0) [(1, 57432, PyVal.pnone)] = true ∧
    ∃ st', commitList (newChain 0) [(1, 57432, PyVal.pnone)] = some st' ∧
      valid_chain st'.chain = some true :=
  ⟨by decide, okRun_valid_chain 0 [(1, 57432, PyVal.pnone)] (by decide)⟩

/-- C2 (counterexample): with one peer responding status 200, reported
length 5 and an empty chain, `resolve_conflicts` on a fresh ledger raises
`IndexError` out of `valid_chain` — it returns neither `false` nor `true`,
although no candidate was adopted. -/
theorem resolve_conflicts_raises_cex :
    (resolve_conflicts (newChain 0) [{ status := 200, length := 5, chain := [] }]).1 ≠
        some false ∧
    (resolve_conflicts (newChain 0) [{ status := 200, length := 5, chain := [] }]).1 ≠
        some true := by
  decide

/-- C2 (amended): when `resolve_conflicts` returns (no `IndexError` escaped
from `valid_chain`), its outcome is exactly the spec's consensus rule
`resolveSpec`: candidates are scanned in order with `currentMaxLength`
initialized to the local chain's length, one is adopted — raising the
running maximum to its reported length — only when its status is 200, its
reported length strictly exceeds the running maximum (so an equal-length
candidate never replaces the current best) and it passes validation, and
the chain is wholesale-replaced by the final adopted candidate with result
`true`, or kept unchanged with result `false` when none was adopted. In
particular: `false` leaves the state unchanged; `true` means the chain was
replaced by some status-200, valid candidate strictly longer than the
local chain; and if no candidate qualifies even against the initial
maximum, the result is `false` with the state unchanged. -/
theorem resolve_conflicts_spec (st : State) (resps : List Resp) (b : Bool) (st' : State)
    (h : resolve_conflicts st resps = (some b, st')) :
    (b, st') = resolveSpec st resps ∧
    (b = false → st' = st) ∧
    (b = true → ∃ r ∈ resps, r.status = 200 ∧ st.chain.length < r.length ∧
      valid_chain r.chain = some true ∧ st' = { st with chain := r.chain }) ∧
    ((∀ r ∈ resps, ¬(r.status = 200 ∧ st.chain.length < r.length ∧
        valid_chain r.chain = some true)) → b = false ∧ st' = st) := by
  unfold resolve_conflicts at h
  cases hscan : scanPeers resps none st.chain.length with
  | none => rw [hscan] at h; simp at h
  | some res =>
    rw [hscan] at h
    obtain ⟨hfld, -⟩ :=
      scanPeers_eq_foldl resps none st.chain.length res (fun c hc => by cases hc) hscan
    cases res with
    | none =>
      simp only [Prod.mk.injEq, Option.some.injEq] at h
      obtain ⟨hb, hst⟩ := h
      subst hb
      subst hst
      have hspec : resolveSpec st resps = (false, st) := by
        unfold resolveSpec
        rw [← hfld]
      refine ⟨hspec.symm, fun _ => rfl, fun hbt => ?_, fun _ => ⟨rfl, rfl⟩⟩
      cases hbt
    | some c =>
      rcases scanPeers_some _ _ _ _ hscan with h1 | ⟨r, hr, hs200, hm, hvc, hres⟩
      · exact absurd h1 (by simp)
      · rw [Option.some.injEq] at hres
        subst hres
        have hcne : r.chain.isEmpty = false := by
          cases hx : r.chain with
          | nil => rw [hx] at hvc; simp [valid_chain] at hvc
          | cons a l => rfl
        simp only [hcne, Bool.false_eq_true, if_false, Prod.mk.injEq,
          Option.some.injEq] at h
        obtain ⟨hb, hst⟩ := h
        subst hb
        subst hst
        have hspec : resolveSpec st resps = (true, { st with chain := r.chain }) := by
          unfold resolveSpec
          rw [← hfld]
        refine ⟨hspec.symm, fun hbf => ?_,
          fun _ => ⟨r, hr, hs200, hm, hvc, rfl⟩,
          fun hno => absurd ⟨hs200, hm, hvc⟩ (hno r hr)⟩
        cases hbf

/-- C2 (witness): a fresh ledger (chain length 1) with one status-200
candidate of equal reported length 1: the candidate is not adopted, the
resolver returns `false`, the state is unchanged, and the outcome matches
the spec-side resolver. -/
theorem resolve_conflicts_spec_witness :
    ((false, newChain 0) =
      resolveSpec (newChain 0)
        [{ status := 200, length := 1, chain := [sampleBlock] }]) ∧
    (false = false → newChain 0 = newChain 0) ∧
    (false = true → ∃ r ∈ ([{ status := 200, length := 1, chain := [sampleBlock] }] :
        List Resp), r.status = 200 ∧
      (newChain 0).chain.length < r.length ∧ valid_chain r.chain = some true ∧
      newChain 0 = { newChain 0 with chain := r.chain }) ∧
    ((∀ r ∈ ([{ status := 200, length := 1, chain := [sampleBlock] }] : List Resp),
        ¬(r.status = 200 ∧ (newChain 0).chain.length < r.length ∧
          valid_chain r.chain = some true)) → false = false ∧ newChain 0 = newChain 0) :=
  resolve_conflicts_spec (newChain 0)
    [{ status := 200, length := 1, chain := [sampleBlock] }] false (newChain 0) (by decide)

/-- C3 (counterexample): `valid_chain` does not return `true` on the empty
chain — `chain[0]` raises `IndexError`. -/
theorem valid_chain_nil_cex : valid_chain ([] : List Block) ≠ some true := by
  decide

/-- C3 (amended): `valid_chain` raises `IndexError` on a chain of length 0
and returns `true` for every chain of length 1, regardless of the single
block's contents. -/
theorem valid_chain_short :
    valid_chain ([] : List Block) = none ∧ ∀ b : Block, valid_chain [b] = some true :=
  ⟨rfl, fun _ => rfl⟩

/-- C4: whenever some proof satisfies the predicate, `proof_of_work`
returns the smallest satisfying value — so the returned proof is valid, no
smaller value is, and the result depends only on `last_proof`. -/
theorem proof_of_work_spec (L : Nat) (h : ∃ p, valid_proof L p = true) :
    valid_proof L (proof_of_work L h) = true ∧
    (∀ m, m < proof_of_work L h → valid_proof L m = false) ∧
    ∀ h' : ∃ p, valid_proof L p = true, proof_of_work L h' = proof_of_work L h := by
  refine ⟨Nat.find_spec h, fun m hm => ?_, fun h' => rfl⟩
  have hmin := Nat.find_min h hm
  cases hv : valid_proof L m with
  | false => rfl
  | true => exact absurd hv hmin

/-- C4 (witness): 57432 satisfies the predicate for `last_proof = 100`, and
the search from 100 returns a valid proof. -/
theorem proof_of_work_spec_witness :
    valid_proof 100 57432 = true ∧
    valid_proof 100 (proof_of_work 100 ⟨57432, by decide⟩) = true :=
  ⟨by decide, (proof_of_work_spec 100 ⟨57432, by decide⟩).1⟩

/-- C5: for chains of length at least 2, `valid_chain` returns `true`
exactly when every consecutive pair passes both the hash-linkage and the
proof check; one failing pair forces `false`, whatever blocks follow it. -/
theorem valid_chain_pairs (c : List Block) (h : 2 ≤ c.length) :
    (valid_chain c = some true ↔
      ∀ (i : Nat) (hi : i + 1 < c.length),
        pairOk (c.get ⟨i, by omega⟩) (c.get ⟨i + 1, hi⟩) = true) ∧
    (∀ (pre : List Block) (x y : Block) (rest rest' : List Block),
      pairOk x y = false →
        valid_chain (pre ++ x :: y :: rest) = some false ∧
        valid_chain (pre ++ x :: y :: rest) = valid_chain (pre ++ x :: y :: rest')) := by
  have hne : c ≠ [] := by
    intro h0
    rw [h0] at h
    simp at h
  have key : ∀ (pre : List Block) (x y : Block) (rest : List Block), pairOk x y = false →
      valid_chain (pre ++ x :: y :: rest) = some false := by
    intro pre x y rest hxy
    have hne2 : pre ++ x :: y :: rest ≠ [] := by simp
    rcases valid_chain_ne_nil _ hne2 with hv | hv
    · exfalso
      have hch := ((valid_chain_eq_true_iff _).1 hv).2
      have h2 := (List.chain'_append.1 hch).2.1
      have h3 := (List.chain'_cons.1 h2).1
      rw [hxy] at h3
      exact Bool.false_ne_true h3
    · exact hv
  refine ⟨?_, fun pre x y rest rest' hxy =>
    ⟨key pre x y rest hxy, by rw [key pre x y rest hxy, key pre x y rest' hxy]⟩⟩
  rw [valid_chain_eq_true_iff]
  constructor
  · rintro ⟨-, hch⟩ i hi
    exact List.chain'_iff_get.1 hch i (by omega)
  · intro hp
    exact ⟨hne, List.chain'_iff_get.2 (fun i hi => hp i (by omega))⟩

/-- C5 (witness): instantiated at the two-block chain made of two copies of
the genesis block. -/
theorem valid_chain_pairs_witness :
    2 ≤ ([sampleBlock, sampleBlock] : List Block).length ∧
    ((valid_chain [sampleBlock, sampleBlock] = some true ↔
      ∀ (i : Nat) (hi : i + 1 < ([sampleBlock, sampleBlock] : List Block).length),
        pairOk (([sampleBlock, sampleBlock] : List Block).get ⟨i, by omega⟩)
          (([sampleBlock, sampleBlock] : List Block).get ⟨i + 1, hi⟩) = true) ∧
    (∀ (pre : List Block) (x y : Block) (rest rest' : List Block),
      pairOk x y = false →
        valid_chain (pre ++ x :: y :: rest) = some false ∧
        valid_chain (pre ++ x :: y :: rest) = valid_chain (pre ++ x :: y :: rest'))) :=
  ⟨by decide, valid_chain_pairs [sampleBlock, sampleBlock] (by decide)⟩

/-- C6 (counterexample): committing with the explicitly supplied falsy
`previous_hash = ""` does not store `""`: the block records the hash of the
last block instead. -/
theorem new_block_empty_string_cex :
    (new_block (newChain 0) 1 7 (PyVal.pstr "")).map (fun r => r.1.previous_hash) ≠
      some (PyVal.pstr "") := by
  decide

/-- C6 (amended): on a non-empty chain, `new_block` with a proof and a
`previous_hash` argument that is either omitted (`None`) or truthy returns
a block with index `len(chain)+1`, the given timestamp, the pending pool as
its transactions, the given proof, and `previous_hash` equal to the
supplied value when one was supplied (truthy) and the hash of the last
block when omitted; the block is appended and the pool is left empty. -/
theorem new_block_commit_spec (st : State) (t p : Nat) (ph : PyVal) (lb : Block)
    (hlb : st.chain.getLast? = some lb)
    (hph : ph = PyVal.pnone ∨ ph.truthy = true) :
    ∃ b : Block, new_block st t p ph =
        some (b, { chain := st.chain ++ [b], current_transactions := [] }) ∧
      b.index = st.chain.length + 1 ∧ b.timestamp = t ∧
      b.transactions = st.current_transactions ∧ b.proof = p ∧
      b.previous_hash = (if ph = PyVal.pnone then PyVal.pstr (hash lb) else ph) := by
  obtain ⟨b, hb, h1, h2, h3, h4, h5⟩ := new_block_spec st t p ph lb hlb
  refine ⟨b, hb, h1, h2, h3, h4, ?_⟩
  rcases hph with hc | hc
  · subst hc
    simpa [PyVal.truthy] using h5
  · have hnn : ph ≠ PyVal.pnone := by
      intro h0
      rw [h0] at hc
      exact Bool.false_ne_true hc
    rw [if_neg hnn]
    rw [h5, if_pos hc]

/-- C6 (witness): instantiated on a fresh ledger with `previous_hash`
omitted. -/
theorem new_block_commit_spec_witness :
    (newChain 0).chain.getLast? = some sampleBlock ∧
    (PyVal.pnone = PyVal.pnone ∨ (PyVal.pnone).truthy = true) ∧
    ∃ b : Block, new_block (newChain 0) 1 7 PyVal.pnone =
        some (b, { chain := (newChain 0).chain ++ [b], current_transactions := [] }) ∧
      b.index = (newChain 0).chain.length + 1 ∧ b.timestamp = 1 ∧
      b.transactions = (newChain 0).current_transactions ∧ b.proof = 7 ∧
      b.previous_hash =
        (if (PyVal.pnone : PyVal) = PyVal.pnone then PyVal.pstr (hash sampleBlock)
         else PyVal.pnone) :=
  ⟨by decide, Or.inl rfl,
    new_block_commit_spec (newChain 0) 1 7 PyVal.pnone sampleBlock (by decide) (Or.inl rfl)⟩

/-- C7: a newly constructed ledger is exactly one genesis block with
index 1, proof 100, previous_hash "1" and no transactions, plus an empty
pending pool. -/
theorem newChain_genesis (t : Nat) :
    (newChain t).chain =
      [{ index := 1, timestamp := t, transactions := [], proof := 100,
         previous_hash := PyVal.pstr "1" }] ∧
    (newChain t).current_transactions = [] :=
  ⟨rfl, rfl⟩

/-- C8 (counterexample): a request whose `sender` is present but `null` is
accepted — the route returns index 2 and the null-sender transaction is
appended to the pool, instead of failing with a validation error. -/
theorem route_accepts_null_cex :
    route_new_transaction (newChain 0)
        [("sender", PyVal.pnone), ("recipient", PyVal.pstr "r"), ("amount", PyVal.pint 5)] =
      (some 2,
       { chain := (newChain 0).chain,
         current_transactions :=
           [{ sender := PyVal.pnone, recipient := PyVal.pstr "r",
              amount := PyVal.pint 5 }] }) := by
  decide

/-- C8 (amended): the transaction route fails (HTTP 400, pool unchanged)
exactly when one of the three required keys is absent; when all three are
present — even with `null` values — the transaction is appended to the
pending pool in submission order and `lastBlock.index + 1` is returned. -/
theorem route_new_transaction_spec (st : State) (values : List (String × PyVal)) (lb : Block)
    (hlb : st.chain.getLast? = some lb) :
    ((∃ k ∈ requiredKeys, values.lookup k = none) →
      route_new_transaction st values = (none, st)) ∧
    (∀ s r a, values.lookup "sender" = some s → values.lookup "recipient" = some r →
      values.lookup "amount" = some a →
      route_new_transaction st values =
        (some (lb.index + 1),
         { st with current_transactions := st.current_transactions ++
             [{ sender := s, recipient := r, amount := a }] })) := by
  constructor
  · rintro ⟨k, hk, hnone⟩
    unfold route_new_transaction
    rw [if_neg]
    intro hall
    rw [List.all_eq_true] at hall
    have hx := hall k hk
    rw [hnone] at hx
    exact absurd hx (by decide)
  · intro s r a hs hr ha
    have hcond : requiredKeys.all (fun k => (values.lookup k).isSome) = true := by
      simp [requiredKeys, hs, hr, ha]
    simp only [route_new_transaction, hcond, if_true, hs, hr, ha, Option.getD_some,
      new_transaction, hlb]

/-- C8 (witness): instantiated on a fresh ledger with a complete
submission. -/
theorem route_new_transaction_spec_witness :
    (newChain 0).chain.getLast? = some sampleBlock ∧
    (((∃ k ∈ requiredKeys,
        ([("sender", PyVal.pstr "a"), ("recipient", PyVal.pstr "b"),
          ("amount", PyVal.pint 3)] : List (String × PyVal)).lookup k = none) →
      route_new_transaction (newChain 0)
        [("sender", PyVal.pstr "a"), ("recipient", PyVal.pstr "b"),
         ("amount", PyVal.pint 3)] = (none, newChain 0)) ∧
    (∀ s r a,
      ([("sender", PyVal.pstr "a"), ("recipient", PyVal.pstr "b"),
        ("amount", PyVal.pint 3)] : List (String × PyVal)).lookup "sender" = some s →
      ([("sender", PyVal.pstr "a"), ("recipient", PyVal.pstr "b"),
        ("amount", PyVal.pint 3)] : List (String × PyVal)).lookup "recipient" = some r →
      ([("sender", PyVal.pstr "a"), ("recipient", PyVal.pstr "b"),
        ("amount", PyVal.pint 3)] : List (String × PyVal)).lookup "amount" = some a →
      route_new_transaction (newChain 0)
        [("sender", PyVal.pstr "a"), ("recipient", PyVal.pstr "b"),
         ("amount", PyVal.pint 3)] =
        (some (sampleBlock.index + 1),
         { newChain 0 with current_transactions := (newChain 0).current_transactions ++
             [{ sender := s, recipient := r, amount := a }] }))) :=
  ⟨by decide,
    route_new_transaction_spec (newChain 0)
      [("sender", PyVal.pstr "a"), ("recipient", PyVal.pstr "b"),
       ("amount", PyVal.pint 3)] sampleBlock (by decide)⟩

/-- C9: on a non-empty chain, a falsy supplied `previous_hash` (the empty
string, the integer 0, or `None` itself) makes `new_block` behave exactly
as if the argument had been omitted — the stored `previous_hash` is the
hash of the last block; only a truthy value is stored verbatim. -/
theorem new_block_falsy_default (st : State) (t p : Nat) (ph : PyVal) (lb : Block)
    (hlb : st.chain.getLast? = some lb) :
    (ph.truthy = false →
      new_block st t p ph = new_block st t p PyVal.pnone ∧
      ∃ b st2, new_block st t p ph = some (b, st2) ∧
        b.previous_hash = PyVal.pstr (hash lb)) ∧
    (ph.truthy = true →
      ∃ b st2, new_block st t p ph = some (b, st2) ∧ b.previous_hash = ph) := by
  constructor
  · intro hf
    obtain ⟨b, hb, -, -, -, -, h5⟩ := new_block_spec st t p ph lb hlb
    rw [hf] at h5
    simp only [Bool.false_eq_true, if_false] at h5
    refine ⟨?_, b, _, hb, h5⟩
    have hpn : (PyVal.pnone).truthy = false := rfl
    simp only [new_block, hf, hpn, Bool.false_eq_true, if_false]
  · intro ht
    obtain ⟨b, hb, -, -, -, -, h5⟩ := new_block_spec st t p ph lb hlb
    rw [ht] at h5
    simp only [if_true] at h5
    exact ⟨b, _, hb, h5⟩

/-- C9 (witness): instantiated on a fresh ledger with the falsy supplied
value `previous_hash = ""`. -/
theorem new_block_falsy_default_witness :
    (newChain 0).chain.getLast? = some sampleBlock ∧
    (((PyVal.pstr "").truthy = false →
      new_block (newChain 0) 2 9 (PyVal.pstr "") = new_block (newChain 0) 2 9 PyVal.pnone ∧
      ∃ b st2, new_block (newChain 0) 2 9 (PyVal.pstr "") = some (b, st2) ∧
        b.previous_hash = PyVal.pstr (hash sampleBlock)) ∧
    ((PyVal.pstr "").truthy = true →
      ∃ b st2, new_block (newChain 0) 2 9 (PyVal.pstr "") = some (b, st2) ∧
        b.previous_hash = PyVal.pstr "")) :=
  ⟨by decide,
    new_block_falsy_default (newChain 0) 2 9 (PyVal.pstr "") sampleBlock (by decide)⟩

/-- C10: `resolve_conflicts` never touches the pending-transaction pool,
whether the chain is replaced, kept, or the call raises. -/
theorem resolve_conflicts_pool_frame (st : State) (resps : List Resp) :
    ((resolve_conflicts st resps).2).current_transactions = st.current_transactions := by
  cases hsc : scanPeers resps none st.chain.length with
  | none => simp [resolve_conflicts, hsc]
  | some res =>
    cases res with
    | none => simp [resolve_conflicts, hsc]
    | some c =>
      by_cases hc : c.isEmpty = true <;> simp [resolve_conflicts, hsc, hc]

end Blockchain
